import Mathlib

/-!
# Verification of the ticksonic trade-classification and replay engine

Shallow embedding of the core logic of the ticksonic repository:
the trade classifier shared by `ticksonic.py`, `ticksonic-alpaca.py` and
`ticksonic-databento.py`, the per-instrument latest-quote store, the
Databento combined-record router `handle_record`, the historical replay
scheduler `run_historical`, and the live-feed retry loop `run`.

Prices are modelled as rationals; `None` values from the Python code
become `Option`; the classification chain is translated branch by branch.
-/

namespace Ticksonic

/-- Constant `EPSILON = 1e-3`, the float-comparison epsilon shared by all variants. -/
def EPSILON : ℚ := 1 / 1000

/-- The `1e-9` tie tolerance used for the equidistant-midpoint check. -/
def TIE_EPSILON : ℚ := 1 / 1000000000

/-- The closed set of classification categories (spec section 3). -/
inductive Category where
  | AtAsk
  | AtBid
  | AboveAsk
  | BelowBid
  | MidpointUnknownQuote
  | MidpointEquidistant
  | MidpointCloserToAsk
  | MidpointCloserToBid
deriving DecidableEq, Repr

/-- The audio cues the classifier can trigger, one per `play_*` method of
`AudioManager` used on the trade path. -/
inductive Cue where
  | buy
  | buyBig
  | sell
  | sellBig
  | aboveAsk
  | aboveAskBig
  | belowBid
  | belowBidBig
  | betweenBidAsk
  | betweenBidAskAsk
  | betweenBidAskBid
deriving DecidableEq, Repr

/-- The classification chain of `handle_trade_message` for a known two-sided
quote: the `if/elif` chain at `ticksonic.py` lines 305-356 (identical in the
alpaca and databento variants). -/
def classifyKnown (price ask bid : ℚ) : Category :=
  if |price - ask| < EPSILON then .AtAsk
  else if |price - bid| < EPSILON then .AtBid
  else if price > ask + EPSILON then .AboveAsk
  else if price < bid - EPSILON then .BelowBid
  else if |(|price - ask|) - (|price - bid|)| < TIE_EPSILON then .MidpointEquidistant
  else if |price - ask| < |price - bid| then .MidpointCloserToAsk
  else .MidpointCloserToBid

/-- Classification with a possibly unknown quote: `if ask is None or bid is
None` the trade is treated as between bid and ask (`MidpointUnknownQuote`). -/
def classify (price : ℚ) (ask bid : Option ℚ) : Category :=
  match ask, bid with
  | some a, some b => classifyKnown price a b
  | _, _ => .MidpointUnknownQuote

/-- Console color printed for each category (the `color` variable of the
classification chain). -/
def colorOf : Category → String
  | .AtAsk => "green"
  | .AtBid => "red"
  | .AboveAsk => "yellow"
  | .BelowBid => "magenta"
  | _ => "white"

/-- Audio cue played for each category, depending on the big-trade flag,
exactly as in the branches of the classification chain. -/
def cueOf : Category → Bool → Cue
  | .AtAsk, false => .buy
  | .AtAsk, true => .buyBig
  | .AtBid, false => .sell
  | .AtBid, true => .sellBig
  | .AboveAsk, false => .aboveAsk
  | .AboveAsk, true => .aboveAskBig
  | .BelowBid, false => .belowBid
  | .BelowBid, true => .belowBidBig
  | .MidpointUnknownQuote, _ => .betweenBidAsk
  | .MidpointEquidistant, _ => .betweenBidAsk
  | .MidpointCloserToAsk, _ => .betweenBidAskAsk
  | .MidpointCloserToBid, _ => .betweenBidAskBid

/-- The bare condition of each rule, conjoined with the negations of every
higher-priority rule's bare condition — the priority order of the claim. -/
def prioCond (price ask bid : ℚ) : Category → Prop
  | .AtAsk => |price - ask| < EPSILON
  | .AtBid => ¬(|price - ask| < EPSILON) ∧ |price - bid| < EPSILON
  | .AboveAsk =>
      ¬(|price - ask| < EPSILON) ∧ ¬(|price - bid| < EPSILON) ∧
      price > ask + EPSILON
  | .BelowBid =>
      ¬(|price - ask| < EPSILON) ∧ ¬(|price - bid| < EPSILON) ∧
      ¬(price > ask + EPSILON) ∧ price < bid - EPSILON
  | .MidpointEquidistant =>
      ¬(|price - ask| < EPSILON) ∧ ¬(|price - bid| < EPSILON) ∧
      ¬(price > ask + EPSILON) ∧ ¬(price < bid - EPSILON) ∧
      |(|price - ask|) - (|price - bid|)| < TIE_EPSILON
  | .MidpointCloserToAsk =>
      ¬(|price - ask| < EPSILON) ∧ ¬(|price - bid| < EPSILON) ∧
      ¬(price > ask + EPSILON) ∧ ¬(price < bid - EPSILON) ∧
      ¬(|(|price - ask|) - (|price - bid|)| < TIE_EPSILON) ∧
      |price - ask| < |price - bid|
  | .MidpointCloserToBid =>
      ¬(|price - ask| < EPSILON) ∧ ¬(|price - bid| < EPSILON) ∧
      ¬(price > ask + EPSILON) ∧ ¬(price < bid - EPSILON) ∧
      ¬(|(|price - ask|) - (|price - bid|)| < TIE_EPSILON) ∧
      ¬(|price - ask| < |price - bid|)
  | .MidpointUnknownQuote => False

/-- What `handle_trade_message` emits for a trade it does not discard:
category, audio cue, console color and the big-trade flag. -/
structure TradeOut where
  category : Category
  cue : Cue
  color : String
  is_big_trade : Bool
deriving DecidableEq, Repr

/-- Reading the stored quote: `self.latest_quotes.get(ticker, dict())` followed
by a get of the ask and bid keys. An absent entry reads as two unknown sides;
a present entry may itself store unknown sides (the feed can deliver
one-sided quotes). -/
def lookupQuote (store : Option (Option ℚ × Option ℚ)) : Option ℚ × Option ℚ :=
  match store with
  | some q => q
  | none => (none, none)

/-- Embedding of `handle_quote_message` (ticksonic.py lines 247-254): replaces the stored
quote wholesale with the message's ask/bid pair. -/
def handle_quote_message (_store : Option (Option ℚ × Option ℚ))
    (ask bid : Option ℚ) : Option (Option ℚ × Option ℚ) :=
  some (ask, bid)

/-- Embedding of `handle_trade_message` (ticksonic.py lines 262-371, identical logic in
ticksonic-alpaca.py lines 195-277): discard below `trade_threshold`, read the
stored quote, classify and emit cue/color/big-flag. Returns `none` when the
trade is discarded. -/
def handle_trade_message (trade_threshold big_threshold : ℚ)
    (store : Option (Option ℚ × Option ℚ)) (price volume : ℚ) :
    Option TradeOut :=
  let amount := price * volume
  if amount < trade_threshold then none
  else
    let ask := (lookupQuote store).1
    let bid := (lookupQuote store).2
    let is_big_trade := decide (amount ≥ big_threshold)
    match ask, bid with
    | some a, some b =>
        let c := classifyKnown price a b
        some ⟨c, cueOf c is_big_trade, colorOf c, is_big_trade⟩
    | _, _ =>
        some ⟨.MidpointUnknownQuote, .betweenBidAsk, "white", is_big_trade⟩

end Ticksonic

namespace Databento

open Ticksonic

/-- A decoded Databento TBBO record as `handle_record` reads it: raw price,
size and timestamp, and the raw top-of-book sides (after the `levels`
fallback), each possibly absent. -/
structure DbRecord where
  price : Option ℚ
  size : Option ℚ
  ts_event : Option ℤ
  ask_px : Option ℚ
  bid_px : Option ℚ
deriving DecidableEq, Repr

/-- Embedding of `convert_price` (ticksonic-databento.py lines 250-251):
`value if value < 10000 else value / 1e9`. -/
def convert_price (value : ℚ) : ℚ :=
  if value < 10000 then value else value / 1000000000

/-- What `handle_record` emits for a record it processes: the converted price
used, the ask/bid the trade was classified against, and the cue/color/flag. -/
structure DbOut where
  price : ℚ
  usedAsk : Option ℚ
  usedBid : Option ℚ
  category : Category
  cue : Cue
  color : String
  is_big_trade : Bool
deriving DecidableEq, Repr

/-- Embedding of `handle_record` (ticksonic-databento.py lines 231-311) on the
single-ticker store: early-return when price, size or timestamp is missing;
convert raw prices; when both sides are present update the store and classify
against the fresh pair, otherwise fall back to the stored quote; classify,
cue and print. `trade_threshold` mirrors `self.trade_threshold`, which the
method never consults. Returns the new store and the emitted output. -/
def handle_record (_trade_threshold big_threshold : ℚ)
    (latest_quote : Option (Option ℚ × Option ℚ)) (r : DbRecord) :
    Option (Option ℚ × Option ℚ) × Option DbOut :=
  match r.price, r.size, r.ts_event with
  | some raw_price, some raw_volume, some _ts =>
      let price := convert_price raw_price
      let ask0 := r.ask_px.map convert_price
      let bid0 := r.bid_px.map convert_price
      let upd :=
        if ask0.isSome ∧ bid0.isSome then (some (ask0, bid0), ask0, bid0)
        else
          match latest_quote with
          | some (a, b) => (latest_quote, a, b)
          | none => (latest_quote, none, none)
      let store' := upd.1
      let ask := upd.2.1
      let bid := upd.2.2
      let amount := price * raw_volume
      let is_big_trade := decide (amount ≥ big_threshold)
      let c := classify price ask bid
      (store', some ⟨price, ask, bid, c, cueOf c is_big_trade, colorOf c, is_big_trade⟩)
  | _, _, _ => (latest_quote, none)

/-- Two minutes in nanoseconds, the window-extension trigger of
`run_historical` (`timedelta(minutes=2)` against `ts_event` nanoseconds). -/
def TWO_MINUTES_NS : ℤ := 120 * 1000000000

/-- One hour in nanoseconds, the window-extension amount
(`timedelta(hours=1)`). -/
def ONE_HOUR_NS : ℤ := 3600 * 1000000000

/-- The pacing sleep `sleep_time = (current_ts - prev_ts) / 1e9`
(ticksonic-databento.py line
210): the duration in seconds passed to `time.sleep` between consecutive
replayed events. No clamping is applied. -/
def sleep_time (prev_ts current_ts : ℤ) : ℚ :=
  ((current_ts : ℚ) - (prev_ts : ℚ)) / 1000000000

/-- The inner loop of `run_historical` (lines 206-229) over one fetched
window, keeping only the dispatch/extension structure: each record is
dispatched, then, when its timestamp leaves less than two minutes before
`current_end`, the loop breaks with the extended window
`(current_end, current_end + 1 hour)`, abandoning the remaining records.
Returns the list of dispatched timestamps and the next window, if any. -/
def playWindow (current_end : ℤ) : List (Option ℤ) → List (Option ℤ) × Option (ℤ × ℤ)
  | [] => ([], none)
  | r :: rest =>
      match r with
      | some ts =>
          if current_end - ts < TWO_MINUTES_NS then
            ([some ts], some (current_end, current_end + ONE_HOUR_NS))
          else
            let p := playWindow current_end rest
            (some ts :: p.1, p.2)
      | none =>
          let p := playWindow current_end rest
          (none :: p.1, p.2)

/-- Both sides of every stored `latest_quote` entry are known. -/
def storeInv (s : Option (Option ℚ × Option ℚ)) : Prop :=
  ∀ a b, s = some (a, b) → a.isSome = true ∧ b.isSome = true

/-- The store after a sequence of `handle_record` calls starting from the
empty store. -/
def runRecords (trade_threshold big_threshold : ℚ) (rs : List DbRecord) :
    Option (Option ℚ × Option ℚ) :=
  rs.foldl (fun s r => (handle_record trade_threshold big_threshold s r).1) none

end Databento

namespace Retry

/-- Observable events of the live-feed retry loop: a connection attempt
(`self.client.run` returning gracefully or raising) and the 10-second
`time.sleep(delay)` between retries. -/
inductive Ev where
  | attempt (ok : Bool)
  | sleep10
deriving DecidableEq, Repr

/-- Constant `max_retries = 3` (ticksonic.py line 396, ticksonic-alpaca.py line 329). -/
def max_retries : ℕ := 3

/-- The `while True` retry loop of `run` (ticksonic.py lines 391-421,
ticksonic-alpaca.py lines 325-359), driven by the list of outcomes of the
successive client runs (`true` = returned gracefully, `false` = raised).
On a graceful return the counter resets to `max_retries`; on an exception it
is decremented, and the loop sleeps 10 seconds and retries while it is still
positive, else breaks. Returns the emitted event trace and whether the loop
broke out cleanly (`true`) or consumed all supplied outcomes while still
running (`false`). -/
def run (remaining_retries : ℕ) : List Bool → List Ev × Bool
  | [] => ([], false)
  | ok :: rest =>
      if ok then
        let p := run max_retries rest
        (Ev.attempt true :: p.1, p.2)
      else
        if remaining_retries - 1 > 0 then
          let p := run (remaining_retries - 1) rest
          (Ev.attempt false :: Ev.sleep10 :: p.1, p.2)
        else
          ([Ev.attempt false], true)

end Retry

namespace QuoteStore

/-- Thread identifiers: the feed thread running `handle_quote_message` and
the reader threads running `handle_trade_message`. -/
inductive Tid where
  | writer
  | reader (i : ℕ)
deriving DecidableEq, Repr

/-- Control state of the writer. Inside the `with self._lock` block of
`handle_quote_message` the paired ask/bid store entry is
modelled at the finest grain the lock must protect against: the two sides
of write `k` are stored one field at a time (ask, then bid, following the
source order), with an explicit acquire and release around them. -/
inductive WPC where
  | wIdle (pend : List ℕ)
  | wLocked (k : ℕ) (pend : List ℕ)
  | wAskDone (k : ℕ) (pend : List ℕ)
  | wDone (pend : List ℕ)
deriving DecidableEq, Repr

/-- Control state of a reader. Inside the `with self._lock` block of
`handle_trade_message` the reader gets `ask` then `bid` from the stored
quote, one field at a time, with an explicit acquire and release around
them. -/
inductive RPC where
  | rIdle
  | rLocked
  | rAskRead (a : ℕ)
  | rDone
deriving DecidableEq, Repr

/-- Whether the writer control state is inside the critical section. -/
def WPC.inCS : WPC → Bool
  | .wIdle _ => false
  | _ => true

/-- Whether a reader control state is inside the critical section. -/
def RPC.inCS : RPC → Bool
  | .rIdle => false
  | _ => true

/-- Pointwise update of a function at one index. -/
def updFn {α : Type} (f : ℕ → α) (i : ℕ) (v : α) : ℕ → α :=
  fun j => if j = i then v else f j

/-- Global state of the quote store under concurrency: the `self._lock`
holder, the stored ask/bid (each side tagged by the index of the write that
produced it), the writer's control state, every reader's control state, and
the (ask, bid) pairs each reader has observed so far. -/
structure Conc where
  lock : Option Tid
  ask : ℕ
  bid : ℕ
  wpc : WPC
  rpc : ℕ → RPC
  obs : ℕ → List (ℕ × ℕ)

/-- Interleaving semantics: at each step one thread performs one atomic
action. Acquiring requires the lock to be free; every access to the shared
pair happens only from inside a critical section. -/
inductive Step : Conc → Conc → Prop where
  | wAcquire (s : Conc) (k : ℕ) (ks : List ℕ)
      (hl : s.lock = none) (hw : s.wpc = .wIdle (k :: ks)) :
      Step s { s with lock := some .writer, wpc := .wLocked k ks }
  | wWriteAsk (s : Conc) (k : ℕ) (ks : List ℕ)
      (hw : s.wpc = .wLocked k ks) :
      Step s { s with ask := k, wpc := .wAskDone k ks }
  | wWriteBid (s : Conc) (k : ℕ) (ks : List ℕ)
      (hw : s.wpc = .wAskDone k ks) :
      Step s { s with bid := k, wpc := .wDone ks }
  | wRelease (s : Conc) (ks : List ℕ)
      (hw : s.wpc = .wDone ks) :
      Step s { s with lock := none, wpc := .wIdle ks }
  | rAcquire (s : Conc) (i : ℕ)
      (hl : s.lock = none) (hr : s.rpc i = .rIdle) :
      Step s { s with lock := some (.reader i), rpc := updFn s.rpc i .rLocked }
  | rReadAsk (s : Conc) (i : ℕ)
      (hr : s.rpc i = .rLocked) :
      Step s { s with rpc := updFn s.rpc i (.rAskRead s.ask) }
  | rReadBid (s : Conc) (i : ℕ) (a : ℕ)
      (hr : s.rpc i = .rAskRead a) :
      Step s { s with rpc := updFn s.rpc i .rDone,
                      obs := updFn s.obs i ((a, s.bid) :: s.obs i) }
  | rRelease (s : Conc) (i : ℕ)
      (hr : s.rpc i = .rDone) :
      Step s { s with lock := none, rpc := updFn s.rpc i .rIdle }

/-- Initial state: lock free, both sides from the initial write `0`, the
writer with its pending list of writes, all readers idle, nothing observed. -/
def init (pend : List ℕ) : Conc :=
  { lock := none, ask := 0, bid := 0, wpc := .wIdle pend,
    rpc := fun _ => .rIdle, obs := fun _ => [] }

/-- Inductive invariant of the interleaving semantics: the lock holder is
exactly the thread inside its critical section; the ask side equals the
in-progress write while the writer is between its two stores, and otherwise
both sides carry the same write tag; a reader that has read the ask read
the current one; and all completed observations are consistent. -/
structure Inv (s : Conc) : Prop where
  wlock : s.wpc.inCS = true ↔ s.lock = some .writer
  rlock : ∀ i, (s.rpc i).inCS = true ↔ s.lock = some (.reader i)
  coher : ∀ k ks, s.wpc = .wAskDone k ks → s.ask = k
  pair : (∀ k ks, s.wpc ≠ .wAskDone k ks) → s.ask = s.bid
  rread : ∀ i a, s.rpc i = .rAskRead a → a = s.ask
  good : ∀ i p, p ∈ s.obs i → Prod.fst p = Prod.snd p

/-- Concrete schedule, step 1: reader 0 acquires the lock. -/
def demo1 : Conc :=
  { init [] with lock := some (.reader 0), rpc := updFn (init []).rpc 0 .rLocked }

/-- Concrete schedule, step 2: reader 0 reads the ask side. -/
def demo2 : Conc :=
  { demo1 with rpc := updFn demo1.rpc 0 (.rAskRead demo1.ask) }

/-- Concrete schedule, step 3: reader 0 reads the bid side, completing an
observation of the initial write. -/
def demo3 : Conc :=
  { demo2 with rpc := updFn demo2.rpc 0 .rDone,
               obs := updFn demo2.obs 0 ((0, demo2.bid) :: demo2.obs 0) }

end QuoteStore

section ClaimTheorems

/-- C9: in the Databento variant, `convert_price` leaves a raw value
strictly below 10000 unchanged and divides a raw value of 10000 or more by
1e9, and `handle_record` applies this same rule uniformly to the trade
price, the ask and the bid of a record. -/
theorem convert_price_uniform :
    (∀ v : ℚ, v < 10000 → Databento.convert_price v = v) ∧
    (∀ v : ℚ, 10000 ≤ v → Databento.convert_price v = v / 1000000000) ∧
    (∀ (th big : ℚ) (store : Option (Option ℚ × Option ℚ)) (rp rv ra rb : ℚ) (t : ℤ),
      ∃ out : Databento.DbOut,
        (Databento.handle_record th big store
          ⟨some rp, some rv, some t, some ra, some rb⟩).2 = some out ∧
        out.price = Databento.convert_price rp ∧
        out.usedAsk = some (Databento.convert_price ra) ∧
        out.usedBid = some (Databento.convert_price rb)) := by
  refine ⟨?_, ?_, ?_⟩
  · intro v h
    simp [Databento.convert_price, h]
  · intro v h
    simp [Databento.convert_price, not_lt.mpr h]
  · intro th big store rp rv ra rb t
    exact ⟨_, rfl, rfl, rfl, rfl⟩

/-- Witness for `convert_price_uniform` at concrete raw values. -/
theorem convert_price_uniform_witness :
    Databento.convert_price 5 = 5 ∧
    Databento.convert_price 150000000000 = 150000000000 / 1000000000 :=
  ⟨convert_price_uniform.1 5 (by norm_num),
   convert_price_uniform.2.1 150000000000 (by norm_num)⟩

/-- C10: the Databento latest-quote store only ever holds fully two-sided
quotes: `handle_record` preserves the two-sided invariant, a record missing
either side never overwrites the store, and every store reachable from the
empty one by a sequence of `handle_record` calls satisfies the invariant. -/
theorem latest_quote_two_sided :
    (∀ (th big : ℚ) (s : Option (Option ℚ × Option ℚ)) (r : Databento.DbRecord),
      Databento.storeInv s → Databento.storeInv (Databento.handle_record th big s r).1) ∧
    (∀ (th big : ℚ) (s : Option (Option ℚ × Option ℚ)) (r : Databento.DbRecord),
      (r.ask_px = none ∨ r.bid_px = none) →
      (Databento.handle_record th big s r).1 = s) ∧
    (∀ (th big : ℚ) (rs : List Databento.DbRecord),
      Databento.storeInv (Databento.runRecords th big rs)) := by
  have step : ∀ (th big : ℚ) (s : Option (Option ℚ × Option ℚ)) (r : Databento.DbRecord),
      Databento.storeInv s → Databento.storeInv (Databento.handle_record th big s r).1 := by
    intro th big s r hs
    rcases r with ⟨p, v, t, ra, rb⟩
    cases p <;> cases v <;> cases t <;>
      simp only [Databento.handle_record] <;> try exact hs
    split
    · rename_i hboth
      intro a b hab
      rw [Option.some_inj] at hab
      cases hab
      exact ⟨hboth.1, hboth.2⟩
    · cases s with
      | none => exact hs
      | some q => rcases q with ⟨a, b⟩; exact hs
  refine ⟨step, ?_, ?_⟩
  · intro th big s r hmiss
    rcases r with ⟨p, v, t, ra, rb⟩
    cases p <;> cases v <;> cases t <;> simp only [Databento.handle_record]
    have hguard : ¬((ra.map Databento.convert_price).isSome = true ∧
        (rb.map Databento.convert_price).isSome = true) := by
      rcases hmiss with h | h <;> simp_all
    rw [if_neg hguard]
    cases s with
    | none => rfl
    | some q => rcases q with ⟨a, b⟩; rfl
  · intro th big rs
    have gen : ∀ (s : Option (Option ℚ × Option ℚ)), Databento.storeInv s →
        Databento.storeInv (rs.foldl
          (fun s r => (Databento.handle_record th big s r).1) s) := by
      induction rs with
      | nil => intro s hs; exact hs
      | cons r rest ih =>
          intro s hs
          exact ih _ (step th big s r hs)
    exact gen none (by intro a b h; simp at h)

/-- Witness for `latest_quote_two_sided` at a concrete one-sided record
applied to a concrete two-sided store. -/
theorem latest_quote_two_sided_witness :
    (Databento.handle_record 90000 490000 (some (some 100, some 99))
      ⟨some 100, some 10, some 0, none, some 99⟩).1 = some (some 100, some 99) :=
  latest_quote_two_sided.2.1 90000 490000 (some (some 100, some 99))
    ⟨some 100, some 10, some 0, none, some 99⟩ (Or.inl rfl)

/-- C2 (divergence): the Databento variant never consults
`trade_threshold` — a trade whose notional 100 × 10 = 1000 is far below the
threshold 90000 is still classified and an output line is emitted. -/
theorem databento_small_trade_emitted :
    ((100 : ℚ) * 10 < 90000) ∧
    ((Databento.handle_record 90000 490000 none
        ⟨some 100, some 10, some 0, some (10005 / 100), some (9995 / 100)⟩).2).isSome
      = true := by
  exact ⟨by norm_num, rfl⟩

/-- C5 (counterexample): the replay pacing sleep is not
`max(0, current − prev)`: with `prev_ts = 2e9` and `current_ts = 1e9` the
code passes `-1` second to `time.sleep`, while the claim requires `0`. -/
theorem sleep_time_not_clamped :
    Databento.sleep_time 2000000000 1000000000 ≠
      max 0 (((1000000000 : ℚ) - 2000000000) / 1000000000) := by
  have h1 : Databento.sleep_time 2000000000 1000000000 = -1 := by
    norm_num [Databento.sleep_time]
  have h2 : max (0 : ℚ) (((1000000000 : ℚ) - 2000000000) / 1000000000) = 0 := by
    rw [max_eq_left (by norm_num)]
  rw [h1, h2]
  norm_num

/-- C5 (amended): the replay scheduler sleeps exactly
`(current_ts − prev_ts) / 1e9` with no clamping: for timestamp-ordered
events the sleep is nonnegative and scales back to the exact original gap
(so the second dispatch occurs no earlier than that gap), while a negative
gap produces a negative sleep argument rather than a zero sleep. -/
theorem sleep_time_exact_gap :
    (∀ prev_ts current_ts : ℤ, prev_ts ≤ current_ts →
      0 ≤ Databento.sleep_time prev_ts current_ts ∧
      Databento.sleep_time prev_ts current_ts * 1000000000 =
        (current_ts : ℚ) - (prev_ts : ℚ)) ∧
    (∀ prev_ts current_ts : ℤ, current_ts < prev_ts →
      Databento.sleep_time prev_ts current_ts < 0) := by
  constructor
  · intro p c h
    constructor
    · apply div_nonneg
      · simp only [sub_nonneg]
        exact_mod_cast h
      · norm_num
    · rw [Databento.sleep_time, div_mul_cancel₀]
      norm_num
  · intro p c h
    apply div_neg_of_neg_of_pos
    · simp only [sub_neg]
      exact_mod_cast h
    · norm_num

/-- Witness for `sleep_time_exact_gap` at concrete timestamp pairs. -/
theorem sleep_time_exact_gap_witness :
    (0 ≤ Databento.sleep_time 1000000000 3000000000 ∧
      Databento.sleep_time 1000000000 3000000000 * 1000000000 =
        (3000000000 : ℚ) - 1000000000) ∧
    Databento.sleep_time 3000000000 1000000000 < 0 := by
  constructor
  · have h := sleep_time_exact_gap.1 1000000000 3000000000 (by norm_num)
    exact ⟨h.1, by exact_mod_cast h.2⟩
  · exact sleep_time_exact_gap.2 3000000000 1000000000 (by norm_num)

/-- C4: when the replay scheduler dispatches an event whose timestamp lies
less than 2 minutes before the current window's end (and no earlier event
did), the inner loop stops with the next fetch window exactly
`(old end, old end + 1 hour)`, and the unprocessed tail of the current
event slice is abandoned: exactly the events up to and including the
triggering one are dispatched. -/
theorem replay_window_extension (current_end : ℤ) (pre : List (Option ℤ))
    (ts : ℤ) (post : List (Option ℤ))
    (hpre : ∀ t : ℤ, some t ∈ pre → Databento.TWO_MINUTES_NS ≤ current_end - t)
    (hts : current_end - ts < Databento.TWO_MINUTES_NS) :
    Databento.playWindow current_end (pre ++ some ts :: post) =
      (pre ++ [some ts],
       some (current_end, current_end + Databento.ONE_HOUR_NS)) := by
  induction pre with
  | nil =>
      simp [Databento.playWindow, hts]
  | cons r rest ih =>
      have ihr := ih (fun u hu => hpre u (List.mem_cons_of_mem _ hu))
      cases r with
      | some t =>
          have h1 : ¬(current_end - t < Databento.TWO_MINUTES_NS) :=
            not_lt.mpr (hpre t (List.mem_cons_self _ _))
          simp only [List.cons_append, Databento.playWindow, if_neg h1,
            List.append_eq, ihr]
      | none =>
          simp only [List.cons_append, Databento.playWindow,
            List.append_eq, ihr]

/-- Witness for `replay_window_extension` on a concrete window and slice. -/
theorem replay_window_extension_witness :
    Databento.playWindow 1000000000000
        [some 0, some 990000000000, some 999000000000] =
      ([some 0, some 990000000000],
       some (1000000000000, 1000000000000 + Databento.ONE_HOUR_NS)) :=
  replay_window_extension 1000000000000 [some 0] 990000000000
    [some 999000000000]
    (by
      intro t ht
      simp only [List.mem_singleton, Option.some_inj] at ht
      subst ht
      decide)
    (by decide)

/-- C8: the live-feed retry loop makes at most 3 consecutive failing
connection attempts, with the 10-second delay between consecutive attempts,
and after the third consecutive failure it breaks out of the loop cleanly
(ignoring any further outcomes); a graceful return resets the retry counter
to `max_retries` whatever its current value. -/
theorem retry_policy :
    (∀ rest : List Bool,
      Retry.run Retry.max_retries (false :: false :: false :: rest) =
        ([.attempt false, .sleep10, .attempt false, .sleep10, .attempt false],
         true)) ∧
    (∀ (r : ℕ) (rest : List Bool),
      Retry.run r (true :: rest) =
        (.attempt true :: (Retry.run Retry.max_retries rest).1,
         (Retry.run Retry.max_retries rest).2)) := by
  constructor
  · intro rest
    rfl
  · intro r rest
    rfl

/-- C3: a trade that passes the notional filter while the stored quote is
absent or has either side unknown is always handled, and yields exactly the
`MidpointUnknownQuote` category with the between-bid-ask cue and a white
output line — never an error or a dropped event. -/
theorem unknown_quote_handled (trade_threshold big_threshold : ℚ)
    (store : Option (Option ℚ × Option ℚ)) (price volume : ℚ)
    (hnot : ¬(price * volume < trade_threshold))
    (hunk : (Ticksonic.lookupQuote store).1 = none ∨
            (Ticksonic.lookupQuote store).2 = none) :
    Ticksonic.handle_trade_message trade_threshold big_threshold store
        price volume =
      some ⟨.MidpointUnknownQuote, .betweenBidAsk, "white",
            decide (price * volume ≥ big_threshold)⟩ := by
  rw [Ticksonic.handle_trade_message]
  simp only [if_neg hnot]
  rcases hask : (Ticksonic.lookupQuote store).1 with _ | a
  · rcases hbid : (Ticksonic.lookupQuote store).2 with _ | b <;> simp [hask, hbid]
  · rcases hbid : (Ticksonic.lookupQuote store).2 with _ | b
    · simp [hask, hbid]
    · rcases hunk with h | h
      · rw [hask] at h; cases h
      · rw [hbid] at h; cases h

/-- Witness for `unknown_quote_handled`: a qualifying trade with no stored
quote at all. -/
theorem unknown_quote_handled_witness :
    Ticksonic.handle_trade_message 90000 490000 none 100 1000 =
      some ⟨.MidpointUnknownQuote, .betweenBidAsk, "white", false⟩ := by
  have h := unknown_quote_handled 90000 490000 none 100 1000
    (by norm_num) (Or.inl rfl)
  have hb : decide ((100 : ℚ) * 1000 ≥ 490000) = false := by
    rw [decide_eq_false_iff_not]
    norm_num
  rw [h, hb]

/-- C6: on a combined quote+trade record (both top-of-book sides present in
the message), `handle_record` stores the fresh quote first and classifies
the trade against that just-updated pair in the same step — whatever
(possibly stale) quote was stored before. -/
theorem combined_record_fresh_quote (th big : ℚ)
    (store : Option (Option ℚ × Option ℚ)) (r : Databento.DbRecord)
    (rp rv : ℚ) (t : ℤ) (ra rb : ℚ)
    (hp : r.price = some rp) (hv : r.size = some rv)
    (ht : r.ts_event = some t)
    (ha : r.ask_px = some ra) (hb : r.bid_px = some rb) :
    (Databento.handle_record th big store r).1 =
      some (some (Databento.convert_price ra),
            some (Databento.convert_price rb)) ∧
    ∃ out : Databento.DbOut,
      (Databento.handle_record th big store r).2 = some out ∧
      out.usedAsk = some (Databento.convert_price ra) ∧
      out.usedBid = some (Databento.convert_price rb) ∧
      out.category = Ticksonic.classifyKnown (Databento.convert_price rp)
        (Databento.convert_price ra) (Databento.convert_price rb) := by
  rcases r with ⟨p, v, tt, a, b⟩
  simp only at hp hv ht ha hb
  subst hp hv ht ha hb
  exact ⟨rfl, _, rfl, rfl, rfl, rfl⟩

/-- Witness for `combined_record_fresh_quote`: a combined record replaces a
concrete stale stored quote and the trade is classified against the fresh
pair. -/
theorem combined_record_fresh_quote_witness :
    (Databento.handle_record 90000 490000 (some (some 1, some 2))
        ⟨some 100, some 10, some 0, some (10005 / 100), some (9995 / 100)⟩).1 =
      some (some (Databento.convert_price (10005 / 100)),
            some (Databento.convert_price (9995 / 100))) :=
  (combined_record_fresh_quote 90000 490000 (some (some 1, some 2))
    ⟨some 100, some 10, some 0, some (10005 / 100), some (9995 / 100)⟩
    100 10 0 (10005 / 100) (9995 / 100) rfl rfl rfl rfl rfl).1

/-- C1: for a trade classified against a known quote with `bid < ask`, the
classifier agrees with the priority-ordered rule set (`prioCond`: each bare
condition conjoined with the negations of all higher-priority conditions),
and that rule set is total and mutually exclusive — exactly one prioritized
condition holds. -/
theorem classifier_total_exclusive (price ask bid : ℚ) (h : bid < ask) :
    (∀ c : Ticksonic.Category,
      Ticksonic.classifyKnown price ask bid = c ↔
        Ticksonic.prioCond price ask bid c) ∧
    (∃! c : Ticksonic.Category, Ticksonic.prioCond price ask bid c) := by
  have hiff : ∀ c : Ticksonic.Category,
      Ticksonic.classifyKnown price ask bid = c ↔
        Ticksonic.prioCond price ask bid c := by
    intro c
    rw [Ticksonic.classifyKnown]
    split_ifs with h1 h2 h3 h4 h5 h6 <;>
      cases c <;>
        simp_all [Ticksonic.prioCond]
  refine ⟨hiff, Ticksonic.classifyKnown price ask bid, (hiff _).mp rfl, ?_⟩
  intro c hc
  exact ((hiff c).mpr hc).symm

/-- Witness for `classifier_total_exclusive`: `bid = 10.00`,
`ask = 10.02`, `price = 10.01` — a quote with `bid < ask`. -/
theorem classifier_total_exclusive_witness :
    ∃! c : Ticksonic.Category,
      Ticksonic.prioCond (1001 / 100) (1002 / 100) 10 c :=
  (classifier_total_exclusive (1001 / 100) (1002 / 100) 10 (by norm_num)).2

/-- The invariant holds in the initial state. -/
theorem QuoteStore.inv_init (pend : List ℕ) : QuoteStore.Inv (QuoteStore.init pend) := by
  refine ⟨?_, ?_, ?_, ?_, ?_, ?_⟩ <;>
    simp [QuoteStore.init, QuoteStore.WPC.inCS, QuoteStore.RPC.inCS]

/-- The invariant is preserved by every interleaving step. -/
theorem QuoteStore.inv_step {s t : QuoteStore.Conc}
    (hs : QuoteStore.Inv s) (hst : QuoteStore.Step s t) : QuoteStore.Inv t := by
  obtain ⟨wlock, rlock, coher, pair, rread, good⟩ := hs
  cases hst with
  | wAcquire k ks hl hw =>
      refine ⟨?_, ?_, ?_, ?_, ?_, good⟩
      · simp [QuoteStore.WPC.inCS]
      · intro i
        dsimp only
        rw [hl] at rlock
        simp_all
      · intro k1 ks1 h1
        cases h1
      · intro _
        exact pair (by rw [hw]; intro k1 ks1 h1; cases h1)
      · exact rread
  | wWriteAsk k ks hw =>
      have hwl : s.lock = some .writer := wlock.mp (by rw [hw]; rfl)
      refine ⟨?_, ?_, ?_, ?_, ?_, good⟩
      · simp [QuoteStore.WPC.inCS, hwl]
      · intro i
        dsimp only
        rw [hwl] at rlock
        simp_all
      · intro k1 ks1 h1
        cases h1
        rfl
      · intro h1
        exact absurd rfl (h1 k ks)
      · intro i a hr
        have h2 := (rlock i).mp (by rw [hr]; rfl)
        rw [hwl] at h2
        cases h2
  | wWriteBid k ks hw =>
      have hwl : s.lock = some .writer := wlock.mp (by rw [hw]; rfl)
      refine ⟨?_, ?_, ?_, ?_, ?_, good⟩
      · simp [QuoteStore.WPC.inCS, hwl]
      · intro i
        dsimp only
        rw [hwl] at rlock
        simp_all
      · intro k1 ks1 h1
        cases h1
      · intro _
        dsimp only
        exact coher k ks hw
      · intro i a hr
        exact rread i a hr
  | wRelease ks hw =>
      have hwl : s.lock = some .writer := wlock.mp (by rw [hw]; rfl)
      refine ⟨?_, ?_, ?_, ?_, ?_, good⟩
      · simp [QuoteStore.WPC.inCS]
      · intro i
        dsimp only
        rw [hwl] at rlock
        simp_all
      · intro k1 ks1 h1
        cases h1
      · intro _
        exact pair (by rw [hw]; intro k1 ks1 h1; cases h1)
      · exact rread
  | rAcquire i hl hr =>
      refine ⟨?_, ?_, coher, pair, ?_, good⟩
      · dsimp only
        rw [hl] at wlock
        simp_all
      · intro j
        dsimp only [QuoteStore.updFn]
        by_cases hji : j = i
        · subst hji
          simp [QuoteStore.RPC.inCS]
        · rw [if_neg hji]
          rw [hl] at rlock
          constructor
          · intro h1
            exact absurd h1 (by simpa using (rlock j).not.mpr (by simp))
          · intro h1
            rw [Option.some_inj] at h1
            cases h1
            exact absurd rfl hji
      · intro j a hj
        dsimp only [QuoteStore.updFn] at hj
        by_cases hji : j = i
        · rw [if_pos hji] at hj
          cases hj
        · rw [if_neg hji] at hj
          exact rread j a hj
  | rReadAsk i hr =>
      have hrl : s.lock = some (.reader i) := (rlock i).mp (by rw [hr]; rfl)
      refine ⟨wlock, ?_, coher, pair, ?_, good⟩
      · intro j
        dsimp only [QuoteStore.updFn]
        by_cases hji : j = i
        · subst hji
          simp [QuoteStore.RPC.inCS, hrl]
        · rw [if_neg hji]
          exact rlock j
      · intro j a hj
        dsimp only [QuoteStore.updFn] at hj
        by_cases hji : j = i
        · rw [if_pos hji] at hj
          injection hj with h2
          rw [← h2]
        · rw [if_neg hji] at hj
          exact rread j a hj
  | rReadBid i a hr =>
      have hrl : s.lock = some (.reader i) := (rlock i).mp (by rw [hr]; rfl)
      have hnw : ∀ k ks, s.wpc ≠ QuoteStore.WPC.wAskDone k ks := by
        intro k ks h1
        have h2 := wlock.mp (by rw [h1]; rfl)
        rw [hrl] at h2
        cases h2
      have hab : s.ask = s.bid := pair hnw
      refine ⟨wlock, ?_, coher, pair, ?_, ?_⟩
      · intro j
        dsimp only [QuoteStore.updFn]
        by_cases hji : j = i
        · subst hji
          simp [QuoteStore.RPC.inCS, hrl]
        · rw [if_neg hji]
          exact rlock j
      · intro j b hj
        dsimp only [QuoteStore.updFn] at hj
        by_cases hji : j = i
        · rw [if_pos hji] at hj
          cases hj
        · rw [if_neg hji] at hj
          exact rread j b hj
      · intro j p hp
        dsimp only [QuoteStore.updFn] at hp
        by_cases hji : j = i
        · rw [if_pos hji] at hp
          rcases List.mem_cons.mp hp with h1 | h1
          · rw [h1]
            dsimp only
            rw [rread i a hr, hab]
          · exact good j p (hji ▸ h1)
        · rw [if_neg hji] at hp
          exact good j p hp
  | rRelease i hr =>
      have hrl : s.lock = some (.reader i) := (rlock i).mp (by rw [hr]; rfl)
      refine ⟨?_, ?_, coher, pair, ?_, good⟩
      · dsimp only
        constructor
        · intro h1
          have h2 := wlock.mp h1
          rw [hrl] at h2
          cases h2
        · intro h1
          cases h1
      · intro j
        dsimp only [QuoteStore.updFn]
        by_cases hji : j = i
        · subst hji
          simp [QuoteStore.RPC.inCS]
        · rw [if_neg hji]
          constructor
          · intro h1
            have h2 := (rlock j).mp h1
            rw [hrl] at h2
            rw [Option.some_inj] at h2
            cases h2
            exact absurd rfl hji
          · intro h1
            cases h1
      · intro j a hj
        dsimp only [QuoteStore.updFn] at hj
        by_cases hji : j = i
        · rw [if_pos hji] at hj
          cases hj
        · rw [if_neg hji] at hj
          exact rread j a hj

/-- The invariant holds in every reachable state. -/
theorem QuoteStore.inv_reachable {pend : List ℕ} {s : QuoteStore.Conc}
    (h : Relation.ReflTransGen QuoteStore.Step (QuoteStore.init pend) s) :
    QuoteStore.Inv s := by
  induction h with
  | refl => exact QuoteStore.inv_init pend
  | tail _ hstep ih => exact QuoteStore.inv_step ih hstep

/-- C7: under the mutual-exclusion lock discipline of
`handle_quote_message` and `handle_trade_message`, one writer thread and
any number of reader threads can interleave freely (down to per-field
accesses inside the critical sections) and still no reader ever completes
an observation whose ask comes from one write and whose bid comes from a
different write: in every reachable state, every observed pair carries a
single write's tag on both sides. -/
theorem quote_store_atomic (pend : List ℕ) (s : QuoteStore.Conc)
    (h : Relation.ReflTransGen QuoteStore.Step (QuoteStore.init pend) s)
    (i : ℕ) (p : ℕ × ℕ) (hp : p ∈ s.obs i) :
    p.1 = p.2 :=
  (QuoteStore.inv_reachable h).good i p hp

/-- Witness for `quote_store_atomic`: the three-step schedule
`demo1`-`demo3` in which reader 0 acquires, reads ask then bid, yields the
consistent observation `(0, 0)`. -/
theorem quote_store_atomic_witness : ((0, 0) : ℕ × ℕ).1 = ((0, 0) : ℕ × ℕ).2 := by
  have h1 : QuoteStore.Step (QuoteStore.init []) QuoteStore.demo1 :=
    QuoteStore.Step.rAcquire (QuoteStore.init []) 0 rfl rfl
  have h2 : QuoteStore.Step QuoteStore.demo1 QuoteStore.demo2 :=
    QuoteStore.Step.rReadAsk QuoteStore.demo1 0 rfl
  have h3 : QuoteStore.Step QuoteStore.demo2 QuoteStore.demo3 :=
    QuoteStore.Step.rReadBid QuoteStore.demo2 0 0 rfl
  have hreach : Relation.ReflTransGen QuoteStore.Step
      (QuoteStore.init []) QuoteStore.demo3 :=
    ((Relation.ReflTransGen.refl.tail h1).tail h2).tail h3
  have hmem : ((0, 0) : ℕ × ℕ) ∈ QuoteStore.demo3.obs 0 := by
    simp [QuoteStore.demo3, QuoteStore.demo2, QuoteStore.demo1,
      QuoteStore.updFn, QuoteStore.init]
  exact quote_store_atomic [] QuoteStore.demo3 hreach 0 (0, 0) hmem

end ClaimTheorems



